import Mathlib

/-!
Shallow embedding of the gramex repository pieces this verification needs:

* `src/gramex/apps/logviewer/logviewer.py`: `DB_CONFIG`, `pdagg`,
  `add_session`, `summarize`, `prepare_where`.
* `src/gramex/handlers/directoryhandler.py`: the path resolution in
  `DirectoryHandler.get`.

Timestamps are modelled as proleptic-Gregorian calendar dates plus
milliseconds within the day (the request log has millisecond resolution:
`pd.to_datetime(data['time'], unit='ms')`).  Chronological order is the
order of `toMs`, total milliseconds since 0001-01-01; sqlite compares the
stored `YYYY-MM-DD HH:MM:SS` strings, which agrees with chronological
order for four-digit years.
-/

set_option maxRecDepth 4000

namespace Gramex

/-- A timestamp: proleptic Gregorian date plus milliseconds within the day. -/
structure DTime where
  y : Nat
  m : Nat
  d : Nat
  ms : Nat
  deriving DecidableEq, Repr

/-- Gregorian leap-year test (as used by pandas `Timestamp`). -/
def isLeap (y : Nat) : Bool :=
  (y % 4 == 0 && y % 100 != 0) || y % 400 == 0

/-- Length of month `m` (1-12) in a year with leap flag `ℓ`. -/
def monthLen (ℓ : Bool) (m : Nat) : Nat :=
  if m = 2 then (if ℓ then 29 else 28)
  else if m = 4 ∨ m = 6 ∨ m = 9 ∨ m = 11 then 30
  else 31

/-- Days in month `m` of year `y`. -/
def daysInMonth (y m : Nat) : Nat := monthLen (isLeap y) m

/-- Days in the months strictly before month `m` (leap flag `ℓ`). -/
def cumDaysBefore (ℓ : Bool) : Nat → Nat
  | 0 => 0
  | 1 => 0
  | m + 1 => cumDaysBefore ℓ m + monthLen ℓ m

/-- Days in the years strictly before year `y` (proleptic Gregorian). -/
def daysBeforeYear (y : Nat) : Nat :=
  365 * (y - 1) + (y - 1) / 4 - (y - 1) / 100 + (y - 1) / 400

/-- Day number of a date: 0001-01-01 is day 1 (a Monday). -/
def dayNumber (y m d : Nat) : Nat :=
  daysBeforeYear y + cumDaysBefore (isLeap y) m + d

/-- Total milliseconds since the epoch; chronological comparison key. -/
def DTime.toMs (t : DTime) : Nat :=
  dayNumber t.y t.m t.d * 86400000 + t.ms

/-- Pandas `Timestamp.weekday()`: Monday = 0 … Sunday = 6. -/
def DTime.weekday (t : DTime) : Nat :=
  (dayNumber t.y t.m t.d - 1) % 7

/-- Midnight of the same day (the `D` resample label). -/
def DTime.floorDay (t : DTime) : DTime := ⟨t.y, t.m, t.d, 0⟩

/-- The previous calendar day, keeping the time of day
(`Timestamp - pd.offsets.Day(1)`). -/
def prevDay (t : DTime) : DTime :=
  if t.d ≥ 2 then ⟨t.y, t.m, t.d - 1, t.ms⟩
  else if t.m ≥ 2 then ⟨t.y, t.m - 1, daysInMonth t.y (t.m - 1), t.ms⟩
  else ⟨t.y - 1, 12, 31, t.ms⟩

/-- The next calendar day, keeping the time of day. -/
def nextDay (t : DTime) : DTime :=
  if t.d < daysInMonth t.y t.m then ⟨t.y, t.m, t.d + 1, t.ms⟩
  else if t.m < 12 then ⟨t.y, t.m + 1, 1, t.ms⟩
  else ⟨t.y + 1, 1, 1, t.ms⟩

/-- Pandas `t - pd.offsets.Day(n)`. -/
def subDays : Nat → DTime → DTime
  | 0, t => t
  | n + 1, t => subDays n (prevDay t)

/-- Pandas `t + pd.offsets.Day(n)`. -/
def addDays : Nat → DTime → DTime
  | 0, t => t
  | n + 1, t => addDays n (nextDay t)

/-- Pandas `t - pd.offsets.MonthBegin(1)`: the first of `t`'s month, or the first
of the previous month when `t.d = 1` (pandas `MonthBegin.is_on_offset`
looks only at the day-of-month); the time of day is kept. -/
def monthBeginSub (t : DTime) : DTime :=
  if t.d = 1 then
    (if t.m = 1 then ⟨t.y - 1, 12, 1, t.ms⟩ else ⟨t.y, t.m - 1, 1, t.ms⟩)
  else ⟨t.y, t.m, 1, t.ms⟩

/-- Zero-pad a number to width `w`. -/
def pad (w n : Nat) : String :=
  let s := toString n
  let l := s.length
  (String.mk (List.replicate (w - l) '0')) ++ s

/-- The string sqlite stores for a (sub-second-free) pandas timestamp:
`YYYY-MM-DD HH:MM:SS`. -/
def DTime.sqlStr (t : DTime) : String :=
  let secs := t.ms / 1000
  pad 4 t.y ++ "-" ++ pad 2 t.m ++ "-" ++ pad 2 t.d ++ " " ++
    pad 2 (secs / 3600) ++ ":" ++ pad 2 (secs % 3600 / 60) ++ ":" ++ pad 2 (secs % 60)

/-- A date is a real calendar date. -/
def ValidDate (t : DTime) : Prop :=
  1 ≤ t.y ∧ 1 ≤ t.m ∧ t.m ≤ 12 ∧ 1 ≤ t.d ∧ t.d ≤ daysInMonth t.y t.m

/-!
Exact rationals

The float arithmetic of the pipeline (durations, `total_seconds()`,
means) is idealized as exact rational arithmetic.  `Frac` is a rational
kept in lowest terms with positive denominator, built on a fuelled
Euclidean gcd so that every operation reduces inside the kernel.
-/

/-- Euclidean gcd with explicit fuel (the second argument strictly
decreases, so `b + 1` steps always suffice). -/
def gcdF : Nat → Nat → Nat → Nat
  | 0, a, _ => a
  | f + 1, a, b => if b = 0 then a else gcdF f b (a % b)

def ngcd (a b : Nat) : Nat := gcdF (b + 1) a b

/-- A rational in lowest terms (`den` positive, `gcd |num| den = 1` for
every value the operations below produce). -/
structure Frac where
  num : Int
  den : Nat
  deriving DecidableEq, Repr

namespace Frac

/-- Normalize `n / d` (`d ≠ 0` in every reachable call). -/
def mk' (n : Int) (d : Nat) : Frac :=
  let g := ngcd n.natAbs d
  if g = 0 then ⟨0, 1⟩ else ⟨n / (g : Int), d / g⟩

def ofInt (n : Int) : Frac := ⟨n, 1⟩

def add (a b : Frac) : Frac :=
  mk' (a.num * (b.den : Int) + b.num * (a.den : Int)) (a.den * b.den)

/-- Exact division; division by zero is unreachable in the pipeline. -/
def div (a b : Frac) : Frac :=
  let n : Int := a.num * (b.den : Int)
  let m : Int := (a.den : Int) * b.num
  if m = 0 then ⟨0, 1⟩
  else if m < 0 then mk' (-n) m.natAbs else mk' n m.natAbs

def le (a b : Frac) : Prop := a.num * (b.den : Int) ≤ b.num * (a.den : Int)

instance : OfNat Frac n := ⟨ofInt n⟩
instance : Add Frac := ⟨add⟩
instance : Div Frac := ⟨div⟩
instance : LE Frac := ⟨le⟩
instance (a b : Frac) : Decidable (a ≤ b) := Int.decLe _ _

/-- The sum of a list (`pandas` column sums). -/
def lsum (l : List Frac) : Frac := l.foldl add 0

end Frac

/-!
The request-log dataframe

A `Row` is one cleaned record of the dataframe `summarize` builds from the
log CSVs: `time` already parsed (`pd.to_datetime(..., unit='ms')`, rows
with unparseable times dropped), `duration` and `status` already numeric
(`pd.to_numeric`, non-numeric rows dropped), the remaining key columns
strings (`fillna('-')` has run, so none is null).
-/

structure Row where
  time : DTime
  userId : String
  ip : String
  status : Int
  uri : String
  duration : Frac
  deriving DecidableEq, Repr

/-- A row after `add_session` added the `new_session` / `session_time`
columns. -/
structure SRow extends Row where
  newSession : Nat
  sessionTime : Frac
  deriving DecidableEq, Repr

/-- Python string `<`: lexicographic comparison by code point. -/
def chLt : List Char → List Char → Bool
  | [], [] => false
  | [], _ :: _ => true
  | _ :: _, [] => false
  | c :: cs, d :: ds =>
    if c.toNat < d.toNat then true
    else if d.toNat < c.toNat then false
    else chLt cs ds

def strLt (a b : String) : Bool := chLt a.toList b.toList

/-- Stable insertion of `x` into `l`, after any element `y` with `le y x`. -/
def insertByB {α : Type} (le : α → α → Bool) (x : α) : List α → List α
  | [] => [x]
  | y :: ys => if le y x then y :: insertByB le x ys else x :: y :: ys

/-- Sort by repeated stable insertion (used for `df.sort_values(by='time')`
and for the sorted group keys of `groupby`). -/
def sortByB {α : Type} (le : α → α → Bool) (l : List α) : List α :=
  l.foldl (fun acc x => insertByB le x acc) []

/-- The statement `data.sort_values(by='time')`, modelled as a stable sort by time. -/
def sortByTime (l : List Row) : List Row :=
  sortByB (fun a b => a.time.toMs ≤ b.time.toMs) l

/-- First binding of `u` in the accumulator of `addSessionGo`. -/
def lookupSeen (u : String) : List (String × DTime) → Option DTime
  | [] => none
  | (v, t) :: rest => if v = u then some t else lookupSeen u rest

/--
Function `add_session(df, duration)` (logviewer.py:58-64):

    s = df.groupby('user.id')['time'].diff().dt.total_seconds()
    flag = s.isnull() | s.ge(duration * 60)
    df['new_session'] = flag.astype(int)
    df['session_time'] = np.where(flag, 0, s)

`groupby(...).diff()` gives, for each row, its time minus the time of the
previous row of the same `user.id` in dataframe order (null when there is
none); the fold keeps, for each user, the time of that user's most recent
row seen so far.
-/
def addSessionGo (duration : Nat) : List (String × DTime) → List Row → List SRow
  | _, [] => []
  | seen, r :: rs =>
    match lookupSeen r.userId seen with
    | none =>
        ⟨r, 1, 0⟩ :: addSessionGo duration ((r.userId, r.time) :: seen) rs
    | some t0 =>
        let s : Frac := Frac.ofInt ((r.time.toMs : Int) - (t0.toMs : Int)) / 1000
        (if Frac.ofInt (duration * 60) ≤ s then ⟨r, 1, 0⟩ else ⟨r, 0, s⟩) ::
          addSessionGo duration ((r.userId, r.time) :: seen) rs

def addSession (duration : Nat) (rows : List Row) : List SRow :=
  addSessionGo duration [] rows

/-!
`pdagg` (logviewer.py:38-48)

`DB_CONFIG` groups by `pd.Grouper(key='time', freq=level)` together with
`user.id`, `ip`, `status`, `uri` and aggregates
the `DB_CONFIG` metrics (duration: count, sum, mean; new_session: sum;
session_time: sum, mean).  Pandas resample labels: `D` is the
midnight of the day, `W` (= `W-SUN`) the Sunday ending the Monday–Sunday
week, `M` the last calendar day of the month.  `groupby(sort=True)`
returns one output row per observed key combination, sorted by the key
tuple; multi-level aggregate columns are flattened to `name_func`.
-/

inductive Freq | M | W | D
  deriving DecidableEq, Repr

def DB_CONFIG_levels : List Freq := [Freq.M, Freq.W, Freq.D]

def Freq.str : Freq → String
  | .M => "M" | .W => "W" | .D => "D"

/-- Table naming: the string `agg` followed by the level letter. -/
def tableName (f : Freq) : String := "agg" ++ f.str

/-- The resample label of a timestamp at frequency `f`. -/
def freqLabel (f : Freq) (t : DTime) : DTime :=
  match f with
  | .D => t.floorDay
  | .W => addDays (6 - t.weekday) t.floorDay
  | .M => ⟨t.y, t.m, daysInMonth t.y t.m, 0⟩

/-- A group key: the time label and the four dimension columns. -/
structure GKey where
  time : DTime
  userId : String
  ip : String
  status : Int
  uri : String
  deriving DecidableEq, Repr

def keyOfRow (f : Freq) (r : SRow) : GKey :=
  ⟨freqLabel f r.time, r.userId, r.ip, r.status, r.uri⟩

/-- Lexicographic comparison of group-key tuples (pandas `groupby`
sorts by the key tuple; strings compare by code point, as in Python). -/
def keyLe (a b : GKey) : Bool :=
  if a.time.toMs ≠ b.time.toMs then a.time.toMs ≤ b.time.toMs
  else if a.userId ≠ b.userId then strLt a.userId b.userId
  else if a.ip ≠ b.ip then strLt a.ip b.ip
  else if a.status ≠ b.status then a.status ≤ b.status
  else !(strLt b.uri a.uri)

/-- One row of an aggregate table an agg table (aggM, aggW, aggD): the reset index (group
keys) followed by the flattened metric columns. -/
structure AggRow where
  time : DTime
  userId : String
  ip : String
  status : Int
  uri : String
  duration_count : Nat
  duration_sum : Frac
  duration_mean : Frac
  new_session_sum : Nat
  session_time_sum : Frac
  session_time_mean : Frac
  deriving DecidableEq, Repr

/-- Aggregate one group. -/
def aggOf (k : GKey) (g : List SRow) : AggRow :=
  let n := g.length
  let dsum : Frac := Frac.lsum (g.map (·.duration))
  let ssum : Frac := Frac.lsum (g.map (·.sessionTime))
  ⟨k.time, k.userId, k.ip, k.status, k.uri,
    n, dsum, dsum / Frac.ofInt n, (g.map (·.newSession)).sum, ssum, ssum / Frac.ofInt n⟩

/-- Keep the first occurrence of each element (tail: already-seen list). -/
def dedupGo {α : Type} [DecidableEq α] (seen : List α) : List α → List α
  | [] => []
  | x :: xs => if x ∈ seen then dedupGo seen xs else x :: dedupGo (x :: seen) xs

/-- The distinct elements of a list, first occurrences first. -/
def dedup {α : Type} [DecidableEq α] (l : List α) : List α := dedupGo [] l

/-- Function `pdagg(df, groups, aggfuncs)` with the `DB_CONFIG` groups and metrics:
one output row per observed key, keys sorted, columns flattened and the
index reset. -/
def pdagg (f : Freq) (rows : List SRow) : List AggRow :=
  (sortByB keyLe (dedup (rows.map (keyOfRow f)))).map
    (fun k => aggOf k (rows.filter (fun r => keyOfRow f r = k)))

/-!
The sqlite store and `summarize` (logviewer.py:67-147)

A table is its column-name list (the schema sqlite recorded when
`to_sql` created it) plus its rows.  `df.to_sql(..., if_exists='append')`
creates a missing table with the dataframe's columns; appending to an
existing table raises `sqlite3.OperationalError` when the dataframe has a
column the table lacks (extra table columns are filled with NULL and are
fine).  `DELETE`/`MAX(time)` compare the stored ISO strings, i.e.
chronological order.

The filesystem is abstracted as the glob result: the log files (name and
already-cleaned rows), sorted by modification time, the current log file
last — `sorted(glob(log_file + '*'), key=os.path.getmtime)`.
-/

/-- The columns of the aggregated dataframe `dff` after `reset_index`:
group keys first, then the flattened metric columns. -/
def dffCols : List String :=
  ["time", "user.id", "ip", "status", "uri",
   "duration_count", "duration_sum", "duration_mean",
   "new_session_sum", "session_time_sum", "session_time_mean"]

/-- The `DB_CONFIG` metrics dict, in insertion order. -/
def DB_CONFIG_metrics : List (String × List String) :=
  [("duration", ["count", "sum", "mean"]),
   ("new_session", ["sum"]),
   ("session_time", ["sum", "mean"])]

/-- The keys of the `DB_CONFIG` dimensions, in order. -/
def DB_CONFIG_dimensions : List String := ["time", "user.id", "ip", "status", "uri"]

/-- The list `DB_CONFIG['table_columns']` (logviewer.py:30-35): the flattened
metric names followed by the dimension keys. -/
def tableColumns : List String :=
  (DB_CONFIG_metrics.map (fun kv => kv.2.map (fun x => kv.1 ++ "_" ++ x))).flatten ++
    DB_CONFIG_dimensions

structure Table where
  sch : List String
  rows : List AggRow
  deriving DecidableEq, Repr

structure DB where
  aggM : Option Table
  aggW : Option Table
  aggD : Option Table
  deriving DecidableEq, Repr

def emptyDB : DB := ⟨none, none, none⟩

def DB.get (db : DB) : Freq → Option Table
  | .M => db.aggM | .W => db.aggW | .D => db.aggD

def DB.set (db : DB) : Freq → Table → DB
  | .M, t => { db with aggM := some t }
  | .W, t => { db with aggW := some t }
  | .D, t => { db with aggD := some t }

/-- One log file of the glob: path string and its cleaned rows. -/
structure FileEnt where
  name : String
  rows : List Row
  deriving DecidableEq, Repr

/-- The environment `summarize` reads: the glob result, sorted by
modification time (most recently modified — the current log file —
last). -/
structure Env where
  files : List FileEnt
  deriving DecidableEq, Repr

/-- Query `SELECT MAX(time) FROM aggD`: none on an empty table. -/
def maxTimeA : List AggRow → Option DTime
  | [] => none
  | r :: rs => some (rs.foldl (fun a b => if a.toMs < b.time.toMs then b.time else a) r.time)

/-- The limit string, built by format from `log_files[-1]` and `dt[:8] + '01'`: the current log file
name, a dot, and the first of `dt`'s month as `YYYY-MM-01`. -/
def logLimit (lastName : String) (dt : DTime) : String :=
  lastName ++ "." ++ ((dt.sqlStr.take 8) ++ "01")

/--
The log files `summarize` reads (logviewer.py:87-97).  When `aggD`
exists, only files sorting strictly after `logLimit` plus the current
log file; otherwise the whole glob.  `none` models the uncaught Python
exceptions: `log_files[-1]` on an empty glob (`IndexError`) and
`dt[:8]` of a NULL `MAX(time)` (`TypeError`).
-/
def selectFiles (files : List FileEnt) : Option Table → Option (List FileEnt)
  | none => some files
  | some t =>
    match files.getLast?, maxTimeA t.rows with
    | some lastF, some dt =>
        some (files.filter (fun f => strLt (logLimit lastF.name dt) f.name) ++ [lastF])
    | _, _ => none

/-- The sessionized dataframe: concatenate the selected files, sort by
time, `add_session(data, duration=15)` (logviewer.py:100-116). -/
def sessData (files : List FileEnt) : List SRow :=
  addSession 15 (sortByTime (files.map (·.rows)).flatten)

/-- The delete boundary `dtt` for a level (logviewer.py:121-126):
`dt` itself for `D`, `dt - Day(dt.weekday())` for `W`,
`dt - MonthBegin(1)` for `M`. -/
def cutoff (f : Freq) (dt : DTime) : DTime :=
  match f with
  | .D => dt
  | .W => subDays dt.weekday dt
  | .M => monthBeginSub dt

/-- Statement DELETE FROM the level's table WHERE time is on/after `dtt`. -/
def deleteFrom (t : Table) (dtt : DTime) : Table :=
  ⟨t.sch, t.rows.filter (fun r => !(dtt.toMs ≤ r.time.toMs))⟩

/-- Call `dff.to_sql(table, conn, if_exists='append', index=False)`:
create a missing table with the dataframe's columns; appending fails
(`sqlite3.OperationalError`, modelled as `none`) iff the dataframe has a
column the table lacks. -/
def insertT : Option Table → List AggRow → Option Table
  | none, new => some ⟨dffCols, new⟩
  | some t, new =>
      if dffCols.all (fun c => c ∈ t.sch) then some ⟨t.sch, t.rows ++ new⟩ else none

/-- Run `summarize(transforms=[], run='reload')` after the tables were
dropped: `table_exists` is now false, so the whole glob is read, no
deletes run, and every insert creates a fresh table (hence cannot raise).
An empty glob returns right after the drop, leaving no tables. -/
def summarizeReload (env : Env) : DB :=
  if env.files = [] then emptyDB
  else
    let data := sessData env.files
    DB_CONFIG_levels.foldl (fun db f => db.set f ⟨dffCols, pdagg f data⟩) emptyDB

/--
The `for freq in levels` loop (logviewer.py:119-145), threading the
cumulatively filtered dataframe and the store.  With `dt` present the
level's rows from `dtt` on are deleted before the fresh aggregates are
inserted; a `DELETE` on a missing table is an uncaught
`sqlite3.OperationalError` (`none`); a failed insert is caught and
answered by `summarize(transforms, run='reload')`, after which the
function returns.
-/
def sumLoop (env : Env) (dt : Option DTime) :
    List Freq → List SRow → DB → Option DB
  | [], _, db => some db
  | f :: fs, data, db =>
    match dt with
    | none =>
      match insertT (db.get f) (pdagg f data) with
      | none => some (summarizeReload env)
      | some t => sumLoop env none fs data (db.set f t)
    | some dtv =>
      let dtt := cutoff f dtv
      let data2 := data.filter (fun r => decide (dtt.toMs ≤ r.time.toMs))
      match db.get f with
      | none => none
      | some t =>
        match insertT (some (deleteFrom t dtt)) (pdagg f data2) with
        | none => some (summarizeReload env)
        | some t2 => sumLoop env (some dtv) fs data2 (db.set f t2)

/--
Function `summarize(transforms=[], run=True)` (logviewer.py:67-147) as a state
transformer on the store; `none` models an uncaught exception.  When no
tables exist and the glob is empty it returns with the store unchanged
(`if not log_files: return`); after the file selection the list always
ends with the current log file and is nonempty.
-/
def summarize (env : Env) (db : DB) : Option DB :=
  match selectFiles env.files db.aggD with
  | none => none
  | some files2 =>
    if files2 = [] then some db
    else
      let dtO := db.aggD.bind (fun t => maxTimeA t.rows)
      sumLoop env dtO DB_CONFIG_levels (sessData files2) db

/-!
`prepare_where` (logviewer.py:150-180)
-/

/-- The operator suffixes of the filter language, longest first. -/
def opSuffixes : List String := ["!~", ">~", "<~", "~", "!", ">", "<"]

/-- Python `s.endswith(suff)` (character-list implementation). -/
def strEndsWith (s suff : String) : Bool :=
  suff.toList.isSuffixOf s.toList

/-- Python `s[:-n]` for `n ≤ len(s)` (character-list implementation). -/
def strDropRight (s : String) (n : Nat) : String :=
  String.mk (s.toList.take (s.toList.length - n))

/-- Modelled from the spec: `gramex.data._filter_col` is imported from
`gramex/data.py`, which is not under `src/`.  Per the spec's description
of the filter-to-SQL layer, an argument key is a column name optionally
followed by one of the operators `''`, `'!'`, `'>'`, `'>~'`, `'<'`,
`'<~'`, `'~'`, `'!~'`; the key is split into the column and the operator
(a bare listed column means the empty operator), and keys whose column is
not listed are left whole so that the caller skips them. -/
def filter_col (key : String) (columns : List String) : String × String :=
  if key ∈ columns then (key, "")
  else
    match opSuffixes.find? (fun op =>
        strEndsWith key op && (strDropRight key op.length) ∈ columns) with
    | some op => (strDropRight key op.length, op)
    | none => (key, "")

/-- Python `min(vals)` — `none` on an empty list (`ValueError`);
ties keep the first occurrence. -/
def minS : List String → Option String
  | [] => none
  | v :: vs => some (vs.foldl (fun a b => if strLt b a then b else a) v)

/-- Python `max(vals)` — `none` on an empty list (`ValueError`). -/
def maxS : List String → Option String
  | [] => none
  | v :: vs => some (vs.foldl (fun a b => if strLt a b then b else a) v)

/-- Python `sep.join(parts)`. -/
def joinSep (sep : String) : List String → String
  | [] => ""
  | [c] => c
  | c :: rest => c ++ sep ++ joinSep sep rest

/-- Python join of vals with a quote-comma-quote separator. -/
def joinQ (vals : List String) : String := joinSep "\", \"" vals

/-- Python `' OR '.join(parts)`. -/
def joinOr (parts : List String) : String := joinSep " OR " parts

/-- Python `' AND '.join(parts)`. -/
def joinAnd (parts : List String) : String := joinSep " AND " parts

/-- Python `needle in hay` on strings. -/
def containsStr (hay needle : String) : Bool :=
  (hay.toList.tails.filter (fun t => needle.toList.isPrefixOf t)) ≠ []

/-- The `for key, vals in args.items()` loop body: the list of emitted
conditions, `none` when `min`/`max` of an empty value list raises. -/
def buildWheres (columns : List String) :
    List (String × List String) → Option (List String)
  | [] => some []
  | (key, vals) :: rest =>
    let cont := buildWheres columns rest
    let cons? := fun (c : String) => cont.map (c :: ·)
    let (col, op) := filter_col key columns
    if col ∈ columns then
      if op = "" then
        cons? ("\"" ++ col ++ "\" IN (\"" ++ joinQ vals ++ "\")")
      else if op = "!" then
        cons? ("\"" ++ col ++ "\" NOT IN (\"" ++ joinQ vals ++ "\")")
      else if op = ">" then
        match minS vals with
        | none => none
        | some v => cons? ("\"" ++ col ++ "\" > \"" ++ v ++ "\"")
      else if op = ">~" then
        match minS vals with
        | none => none
        | some v => cons? ("\"" ++ col ++ "\" >= \"" ++ v ++ "\"")
      else if op = "<" then
        match maxS vals with
        | none => none
        | some v => cons? ("\"" ++ col ++ "\" < \"" ++ v ++ "\"")
      else if op = "<~" then
        match maxS vals with
        | none => none
        | some v => cons? ("\"" ++ col ++ "\" <= \"" ++ v ++ "\"")
      else if op = "~" then
        cons? ("(" ++ joinOr (vals.map
          (fun x => "\"" ++ col ++ "\" LIKE \"%" ++ x ++ "%\"")) ++ ")")
      else if op = "!~" then
        cons? ("(" ++ joinOr (vals.map
          (fun x => "\"" ++ col ++ "\" NOT LIKE \"%" ++ x ++ "%\"")) ++ ")")
      else cont
    else cont

/-- Function `prepare_where(query, args, columns)`: join the conditions with
`' AND '`, return `''` when nothing applies, else prepend `'WHERE '` —
or `'AND '` when the query already contains `' WHERE '`. -/
def prepare_where (query : String) (args : List (String × List String))
    (columns : List String) : Option String :=
  (buildWheres columns args).map (fun conds =>
    let wheres := joinAnd conds
    if wheres = "" then wheres
    else (if containsStr query " WHERE " then "AND " else "WHERE ") ++ wheres)

/-!
`DirectoryHandler.get` path resolution (directoryhandler.py:126-147)

`pathlib` model: a path is an absolute flag plus its components.
Parsing drops empty components and `'.'` but keeps `'..'`; `/` (`join`)
appends (or replaces on an absolute right side) without normalizing;
`relative_to` is purely lexical — it only checks that the root's
components are a prefix; the operating system resolves `'..'` when the
file is actually opened (`resolveParts`, symlink-free model).
`self.root` was `Path(path).resolve()`d in `initialize`, so it is
absolute and free of `'..'`/`'.'`.
-/

structure PPath where
  isAbs : Bool
  parts : List String
  deriving DecidableEq, Repr

/-- Split a character list at `'/'`. -/
def splitSlash : List Char → List (List Char)
  | [] => [[]]
  | c :: cs =>
    match splitSlash cs with
    | [] => [[c]]
    | h :: t => if c = '/' then [] :: h :: t else (c :: h) :: t

def parsePath (s : String) : PPath :=
  ⟨("/".toList).isPrefixOf s.toList,
   ((splitSlash s.toList).map String.mk).filter (fun c => c ≠ "" ∧ c ≠ ".")⟩

/-- Join `self.root / path` (pathlib slash): an absolute right side replaces the
left side; no `'..'` normalization happens. -/
def joinPath (a b : PPath) : PPath :=
  if b.isAbs then b else ⟨a.isAbs, a.parts ++ b.parts⟩

/-- Check `p.relative_to(root)` (lexical): `some` of the remaining components
when root's components are a prefix, otherwise `none` (`ValueError`). -/
def relativeToPath (p root : PPath) : Option (List String) :=
  if root.isAbs = p.isAbs ∧ root.parts.isPrefixOf p.parts then
    some (p.parts.drop root.parts.length)
  else none

/-- What the operating system resolves a component list to (`'..'` pops;
at the filesystem root it is a no-op). -/
def resolveParts (parts : List String) : List String :=
  parts.foldl (fun acc c => if c = ".." then acc.dropLast else acc ++ [c]) []

/-- The confinement check of `DirectoryHandler.get` (lines 128-130) and
the filesystem path a surviving request is served from: `none` when
`relative_to` raises, otherwise the OS-resolved component list of
`self.path = (self.root / path).absolute()` (root is already absolute,
so `absolute()` is the identity). -/
def dirGetServes (root : PPath) (reqPath : String) : Option (List String) :=
  let p := joinPath root (parsePath reqPath)
  match relativeToPath p root with
  | none => none
  | some _ => some (resolveParts p.parts)

/-!
Specification-side definitions

Definitions below render the words of the specification's claims, to be
compared with the source-side definitions above.
-/

/-- Claim side: "the first day of the period containing" a time, for the
monthly level — the first day of that time's month. -/
def monthFirst (t : DTime) : DTime := ⟨t.y, t.m, 1, 0⟩

/-- Claim side (C4): the single SQL condition emitted for one argument
key, `none` when the key's column is not listed: IN of all values for
the empty operator, NOT IN for `!`, strict/non-strict comparison against
the minimum value for `>` / `>~` and against the maximum value for
`<` / `<~`, an OR-disjunction of `LIKE "%value%"` (or `NOT LIKE`) for
`~` / `!~`. -/
def specCond (columns : List String) (kv : String × List String) : Option String :=
  let col := (filter_col kv.1 columns).1
  let op := (filter_col kv.1 columns).2
  if col ∈ columns then
    match op with
    | "" => some ("\"" ++ col ++ "\" IN (\"" ++ joinQ kv.2 ++ "\")")
    | "!" => some ("\"" ++ col ++ "\" NOT IN (\"" ++ joinQ kv.2 ++ "\")")
    | ">" => some ("\"" ++ col ++ "\" > \"" ++ (minS kv.2).getD "" ++ "\"")
    | ">~" => some ("\"" ++ col ++ "\" >= \"" ++ (minS kv.2).getD "" ++ "\"")
    | "<" => some ("\"" ++ col ++ "\" < \"" ++ (maxS kv.2).getD "" ++ "\"")
    | "<~" => some ("\"" ++ col ++ "\" <= \"" ++ (maxS kv.2).getD "" ++ "\"")
    | "~" => some ("(" ++ joinOr (kv.2.map
        (fun x => "\"" ++ col ++ "\" LIKE \"%" ++ x ++ "%\"")) ++ ")")
    | "!~" => some ("(" ++ joinOr (kv.2.map
        (fun x => "\"" ++ col ++ "\" NOT LIKE \"%" ++ x ++ "%\"")) ++ ")")
    | _ => none
  else none

/-- Claim side (C4): one condition per applicable key, joined with
`' AND '`, the empty string when no condition applies, else the
`'WHERE '` / `'AND '` prefix depending on whether the query already
contains `' WHERE '`. -/
def prepareWhereSpec (query : String) (args : List (String × List String))
    (columns : List String) : String :=
  let conds := args.filterMap (specCond columns)
  if conds = [] then ""
  else (if containsStr query " WHERE " then "AND " else "WHERE ") ++ joinAnd conds

/-!
Concrete inputs for the counterexamples

`envA`: a single log file with two requests of one user, one on
Tuesday 2024-04-30 12:00, one on Thursday 2024-05-02 12:00 — the two
days fall in the same Monday–Sunday week but in different months.

`envB`/`dbB`: a store whose recorded daily maximum is exactly a month
begin, 2024-05-01, with a monthly row for April (month-end label
2024-04-30) still present, and a log file with one request on
2024-05-01 10:00.
-/

def exRowApr : Row := ⟨⟨2024, 4, 30, 43200000⟩, "u", "a", 200, "/", 1⟩
def exRowMay : Row := ⟨⟨2024, 5, 2, 43200000⟩, "u", "a", 200, "/", 1⟩
def envA : Env := ⟨[⟨"requests.csv", [exRowApr, exRowMay]⟩]⟩

def envB : Env := ⟨[⟨"requests.csv", [⟨⟨2024, 5, 1, 36000000⟩, "u", "a", 200, "/", 1⟩]⟩]⟩
def aprAgg : AggRow := ⟨⟨2024, 4, 30, 0⟩, "u", "a", 200, "/", 1, 1, 1, 1, 0, 0⟩
def mayAgg : AggRow := ⟨⟨2024, 5, 31, 0⟩, "u", "a", 200, "/", 1, 1, 1, 1, 0, 0⟩
def dAgg : AggRow := ⟨⟨2024, 5, 1, 0⟩, "u", "a", 200, "/", 1, 1, 1, 1, 0, 0⟩
def dbB : DB :=
  ⟨some ⟨dffCols, [aprAgg, mayAgg]⟩, some ⟨dffCols, []⟩, some ⟨dffCols, [dAgg]⟩⟩

/-- Concrete rows for witnesses: two requests of one user 100 s apart. -/
def wRowA : Row := ⟨⟨2024, 5, 2, 0⟩, "u", "a", 200, "/", 1⟩
def wRowB : Row := ⟨⟨2024, 5, 2, 100000⟩, "u", "a", 200, "/", 1⟩
def wRows : List Row := [wRowA, wRowB]

/-- The aggregate row of `pdagg D` on the sessionized `wRows`. -/
def wAgg : AggRow := ⟨⟨2024, 5, 2, 0⟩, "u", "a", 200, "/", 2, 2, 1, 1, 100, 50⟩

/-!
Theorems
-/

/--
C1.  The claim says a second `summarize` run over the same log files
leaves every aggregate table unchanged.  It does not: on `envA` (one log
file, two requests of one user on 2024-04-30 and 2024-05-02 — the same
Monday–Sunday week straddling a month boundary) the first run's `aggW`
week row counts both requests, but the second run recomputes that week
row after the `M`-level statement `data = data[data.time.ge(dtt)]` has
already dropped every row before 2024-05-01 from the shared dataframe,
and after deleting `aggW` from Monday 2024-04-29 on, so the reinserted
week row counts only one request.
-/
theorem claim1_rerun_changes_weekly :
    (summarize envA emptyDB).map
        (fun db => db.aggW.map (fun t => t.rows.map (·.duration_count))) =
      some (some [2]) ∧
    ((summarize envA emptyDB).bind (summarize envA)).map
        (fun db => db.aggW.map (fun t => t.rows.map (·.duration_count))) =
      some (some [1]) := by
  constructor
  · decide
  · decide

/--
C2 counterexample.  The claim says the `M`-level delete boundary is "the
first day of the month" containing the recorded maximum time.  When that
maximum is itself a month begin (here 2024-05-01), pandas
`dt - MonthBegin(1)` rolls back a whole month to 2024-04-01, so the April
row `aprAgg` of `aggM` — strictly before the first day of the maximum's
month and hence kept according to the claim — is deleted and not
reinserted.
-/
theorem claim2_month_begin_counterexample :
    maxTimeA [dAgg] = some ⟨2024, 5, 1, 0⟩ ∧
    dbB.aggM = some ⟨dffCols, [aprAgg, mayAgg]⟩ ∧
    aprAgg.time.toMs < (monthFirst ⟨2024, 5, 1, 0⟩).toMs ∧
    (summarize envB dbB).map
        (fun db => db.aggM.map (fun t => decide (aprAgg ∈ t.rows))) =
      some (some false) := by
  refine ⟨by decide, rfl, by decide, by decide⟩

/--
C8.  The claim says `DirectoryHandler.get` never serves a file outside
the configured root.  The check `self.path.relative_to(self.root)` is
purely lexical and `(root / path).absolute()` does not normalize `..`,
so for root `/srv/app` the request path `../secret` passes the check
while the operating system resolves it to `/srv/secret`, outside the
root.
-/
theorem claim8_path_escape_served :
    dirGetServes ⟨true, ["srv", "app"]⟩ "../secret" = some ["srv", "secret"] ∧
    (["srv", "app"].isPrefixOf ["srv", "secret"]) = false := by
  constructor
  · decide
  · decide

/--
C9.  `prepare_where` interpolates filter values verbatim: for the value
`x" OR "1"="1` under key `uri` the emitted clause contains the raw value
(second conjunct), whose double quote terminates the SQL string literal,
leaving `"uri" IN ("x" OR "1"="1")` instead of a comparison against the
given value (first conjunct).
-/
theorem claim9_quote_interpolated :
    prepare_where "SELECT * FROM aggD" [("uri", ["x\" OR \"1\"=\"1"])] tableColumns =
      some "WHERE \"uri\" IN (\"x\" OR \"1\"=\"1\")" ∧
    containsStr "WHERE \"uri\" IN (\"x\" OR \"1\"=\"1\")" "x\" OR \"1\"=\"1" = true := by
  constructor
  · decide
  · decide

/-!
Helper lemmas
-/

/-- Invariant of the `add_session` fold: the accumulator holds, for each
user, the time of that user's last row among the rows already
processed. -/
theorem addSessionGo_mem (duration : Nat) :
    ∀ (rows : List Row) (seen : List (String × DTime)) (sr : SRow),
    sr ∈ addSessionGo duration seen rows →
    (sr.newSession = 0 ∨ sr.newSession = 1) ∧
    (sr.newSession = 1 → sr.sessionTime = 0) := by
  intro rows
  induction rows with
  | nil => intro seen sr h; simp [addSessionGo] at h
  | cons r0 rs ih =>
    intro seen sr h
    cases hl : lookupSeen r0.userId seen with
    | none =>
      rw [addSessionGo, hl] at h
      rcases List.mem_cons.mp h with h0 | h1
      · subst h0; exact ⟨Or.inr rfl, fun _ => rfl⟩
      · exact ih _ _ h1
    | some t0 =>
      rw [addSessionGo, hl] at h
      rcases List.mem_cons.mp h with h0 | h1
      · by_cases hge :
          Frac.ofInt (duration * 60) ≤
            Frac.ofInt ((r0.time.toMs : Int) - (t0.toMs : Int)) / 1000
        · rw [if_pos hge] at h0; subst h0; exact ⟨Or.inr rfl, fun _ => rfl⟩
        · rw [if_neg hge] at h0; subst h0
          exact ⟨Or.inl rfl, fun hc => absurd hc (by simp)⟩
      · exact ih _ _ h1


theorem addSessionGo_spec (duration : Nat) :
    ∀ (rows pre : List Row) (seen : List (String × DTime)),
    (∀ u, lookupSeen u seen =
      ((pre.filter (fun p => p.userId = u)).getLast?).map (·.time)) →
    ∀ (i : Nat) (r : Row), rows.get? i = some r →
    ∃ sr, (addSessionGo duration seen rows).get? i = some sr ∧ sr.toRow = r ∧
      ((((pre ++ rows.take i).filter
          (fun p => p.userId = r.userId)).getLast? = none) →
        sr.newSession = 1 ∧ sr.sessionTime = 0) ∧
      (∀ p, (((pre ++ rows.take i).filter
          (fun p => p.userId = r.userId)).getLast? = some p) →
        if Frac.ofInt (duration * 60) ≤
            Frac.ofInt ((r.time.toMs : Int) - (p.time.toMs : Int)) / 1000
        then sr.newSession = 1 ∧ sr.sessionTime = 0
        else sr.newSession = 0 ∧ sr.sessionTime =
          Frac.ofInt ((r.time.toMs : Int) - (p.time.toMs : Int)) / 1000) := by
  intro rows
  induction rows with
  | nil => intro pre seen hseen i r hr; simp at hr
  | cons r0 rs ih =>
    intro pre seen hseen i r hr
    cases i with
    | zero =>
      have hr0 : r0 = r := by simpa using hr
      subst hr0
      have h0 := hseen r0.userId
      cases hl : lookupSeen r0.userId seen with
      | none =>
        rw [hl] at h0
        have hnone : ((pre.filter (fun p => p.userId = r0.userId)).getLast?) = none :=
          Option.map_eq_none.mp h0.symm
        refine ⟨⟨r0, 1, 0⟩, by simp [addSessionGo, hl], rfl, fun _ => ⟨rfl, rfl⟩, ?_⟩
        intro p hp
        simp only [List.take_zero, List.append_nil] at hp
        rw [hnone] at hp
        exact absurd hp (by simp)
      | some t0 =>
        rw [hl] at h0
        obtain ⟨p, hp, hpt⟩ := Option.map_eq_some'.mp h0.symm
        by_cases hge :
          Frac.ofInt (duration * 60) ≤
            Frac.ofInt ((r0.time.toMs : Int) - (t0.toMs : Int)) / 1000
        · refine ⟨⟨r0, 1, 0⟩, by simp [addSessionGo, hl, hge], rfl, ?_, ?_⟩
          · intro hn
            simp only [List.take_zero, List.append_nil] at hn
            rw [hp] at hn; exact absurd hn (by simp)
          · intro q hq
            simp only [List.take_zero, List.append_nil] at hq
            rw [hp] at hq
            have hqp : q = p := by injection hq.symm
            subst hqp
            rw [hpt, if_pos hge]
            exact ⟨rfl, rfl⟩
        · refine ⟨⟨r0, 0, Frac.ofInt ((r0.time.toMs : Int) - (t0.toMs : Int)) / 1000⟩,
            by simp [addSessionGo, hl, hge], rfl, ?_, ?_⟩
          · intro hn
            simp only [List.take_zero, List.append_nil] at hn
            rw [hp] at hn; exact absurd hn (by simp)
          · intro q hq
            simp only [List.take_zero, List.append_nil] at hq
            rw [hp] at hq
            have hqp : q = p := by injection hq.symm
            subst hqp
            rw [hpt, if_neg hge]
            exact ⟨rfl, rfl⟩
    | succ j =>
      have hr2 : rs.get? j = some r := by simpa using hr
      have hseen2 : ∀ u, lookupSeen u ((r0.userId, r0.time) :: seen) =
          (((pre ++ [r0]).filter (fun p => p.userId = u)).getLast?).map (·.time) := by
        intro u
        by_cases hu : r0.userId = u
        · subst hu
          rw [List.filter_append]
          simp only [lookupSeen, if_pos rfl]
          simp [List.getLast?_concat]
        · rw [List.filter_append]
          simp only [lookupSeen, if_neg hu]
          have hemp : ([r0].filter (fun p => p.userId = u)) = [] := by
            simp [hu]
          rw [hemp, List.append_nil]
          exact hseen u
      obtain ⟨sr, h1, h2, h3, h4⟩ := ih (pre ++ [r0]) _ hseen2 j r hr2
      have hassoc : pre ++ (r0 :: rs).take (j + 1) = (pre ++ [r0]) ++ rs.take j := by
        simp [List.take_succ_cons]
      refine ⟨sr, ?_, h2, ?_, ?_⟩
      · cases hl : lookupSeen r0.userId seen <;>
          (rw [addSessionGo, hl]; simpa [List.get?_cons_succ] using h1)
      · rw [hassoc]; exact h3
      · rw [hassoc]; exact h4

/--
C3.  `add_session` marks a row as a session boundary (`new_session = 1`,
`session_time = 0`) exactly when it is the first row of its `user.id` or
the elapsed seconds since that user's previous row is at least
`duration * 60`; otherwise `new_session = 0` and `session_time` is the
elapsed gap in seconds.  `summarize` runs it with `duration = 15`
(first conjunct), so a gap of 15 minutes or more opens a new session.
-/
theorem claim3_session_boundaries (duration : Nat) (rows : List Row)
    (hsorted : rows.Pairwise (fun a b => a.time.toMs ≤ b.time.toMs))
    (i : Nat) (r : Row) (hr : rows.get? i = some r) :
    (∀ fs, sessData fs = addSession 15 (sortByTime (fs.map (·.rows)).flatten)) ∧
    ∃ sr, (addSession duration rows).get? i = some sr ∧ sr.toRow = r ∧
      (((rows.take i).filter (fun p => p.userId = r.userId)).getLast? = none →
        sr.newSession = 1 ∧ sr.sessionTime = 0) ∧
      (∀ p, ((rows.take i).filter (fun p => p.userId = r.userId)).getLast? = some p →
        if Frac.ofInt (duration * 60) ≤
            Frac.ofInt ((r.time.toMs : Int) - (p.time.toMs : Int)) / 1000
        then sr.newSession = 1 ∧ sr.sessionTime = 0
        else sr.newSession = 0 ∧ sr.sessionTime =
          Frac.ofInt ((r.time.toMs : Int) - (p.time.toMs : Int)) / 1000) := by
  refine ⟨fun fs => rfl, ?_⟩
  have h := addSessionGo_spec duration rows [] []
    (by intro u; simp [lookupSeen]) i r hr
  simpa [addSession] using h

/-- Witness for C3 at a concrete input: two rows of one user 100 seconds
apart; the second row is not a boundary and has `session_time = 100`. -/
theorem claim3_session_boundaries_witness :
    wRows.Pairwise (fun a b => a.time.toMs ≤ b.time.toMs) ∧
    wRows.get? 1 = some wRowB ∧
    ((∀ fs, sessData fs = addSession 15 (sortByTime (fs.map (·.rows)).flatten)) ∧
     ∃ sr, (addSession 15 wRows).get? 1 = some sr ∧ sr.toRow = wRowB ∧
       (((wRows.take 1).filter (fun p => p.userId = wRowB.userId)).getLast? = none →
         sr.newSession = 1 ∧ sr.sessionTime = 0) ∧
       (∀ p, ((wRows.take 1).filter
           (fun p => p.userId = wRowB.userId)).getLast? = some p →
         if Frac.ofInt (15 * 60) ≤
             Frac.ofInt ((wRowB.time.toMs : Int) - (p.time.toMs : Int)) / 1000
         then sr.newSession = 1 ∧ sr.sessionTime = 0
         else sr.newSession = 0 ∧ sr.sessionTime =
           Frac.ofInt ((wRowB.time.toMs : Int) - (p.time.toMs : Int)) / 1000)) :=
  ⟨by decide, rfl, claim3_session_boundaries 15 wRows (by decide) 1 wRowB rfl⟩

/--
C10.  Every output row of `add_session` has `new_session` equal to 0 or 1, and
boundary rows (`new_session = 1`) have `session_time = 0` — so boundary
rows contribute nothing to the `session_time` sums and means the agg
tables store.
-/
theorem claim10_session_invariant (duration : Nat) (rows : List Row) (sr : SRow)
    (h : sr ∈ addSession duration rows) :
    (sr.newSession = 0 ∨ sr.newSession = 1) ∧
    (sr.newSession = 1 → sr.sessionTime = 0) :=
  addSessionGo_mem duration rows [] sr h

/--
C7.  Incremental ingestion: when the daily table exists (with recorded
maximum time `dt`), `summarize` reads exactly the glob entries whose
names sort strictly after `'<current log file>.' + dt[:8] + '01'`, plus
the current log file itself; when no tables exist it reads the whole
glob (which the environment holds sorted by modification time).
-/
theorem claim7_incremental_file_selection :
    (∀ (files : List FileEnt) (t : Table) (lastF : FileEnt) (dt : DTime),
      files.getLast? = some lastF → maxTimeA t.rows = some dt →
      selectFiles files (some t) =
        some (files.filter (fun f =>
          strLt (lastF.name ++ "." ++ ((dt.sqlStr.take 8) ++ "01")) f.name) ++
            [lastF])) ∧
    (∀ files, selectFiles files none = some files) := by
  constructor
  · intro files t lastF dt h1 h2
    simp [selectFiles, h1, h2, logLimit]
  · intro files; rfl

/-- Witness for C7: with the store's maximum at 2024-05-01, the limit
string is `requests.csv.2024-05-01`, so the April file is skipped and
only the current log file is read. -/
theorem claim7_incremental_file_selection_witness :
    ([⟨"requests.csv.2024-04-01", []⟩, ⟨"requests.csv", []⟩] : List FileEnt).getLast? =
      some ⟨"requests.csv", []⟩ ∧
    maxTimeA (⟨dffCols, [dAgg]⟩ : Table).rows = some ⟨2024, 5, 1, 0⟩ ∧
    selectFiles [⟨"requests.csv.2024-04-01", []⟩, ⟨"requests.csv", []⟩]
        (some ⟨dffCols, [dAgg]⟩) =
      some (([⟨"requests.csv.2024-04-01", []⟩, ⟨"requests.csv", []⟩] : List FileEnt).filter
          (fun f => strLt ("requests.csv" ++ "." ++
            (((⟨2024, 5, 1, 0⟩ : DTime).sqlStr.take 8) ++ "01")) f.name) ++
        [⟨"requests.csv", []⟩]) :=
  ⟨rfl, by decide,
    claim7_incremental_file_selection.1
      [⟨"requests.csv.2024-04-01", []⟩, ⟨"requests.csv", []⟩]
      ⟨dffCols, [dAgg]⟩ ⟨"requests.csv", []⟩ ⟨2024, 5, 1, 0⟩ rfl (by decide)⟩

/--
C5.  Schema-mismatch recovery: when all three tables exist but some
table's columns no longer cover the aggregated dataframe's columns, the
`to_sql` append raises `sqlite3.OperationalError`; `summarize` catches
it, reruns itself with `run='reload'` — dropping all three tables and
redoing the whole job from every log file — and returns that result
instead of propagating the error (the model's `summarize` yields `some`,
i.e. no uncaught exception).
-/
theorem claim5_schema_mismatch_reload
    (env : Env) (sM sW sD : List String) (rM rW rD : List AggRow) (dt : DTime)
    (hfiles : env.files ≠ [])
    (hmax : maxTimeA rD = some dt)
    (hbad : dffCols.all (fun c => c ∈ sM) = false ∨
            dffCols.all (fun c => c ∈ sW) = false ∨
            dffCols.all (fun c => c ∈ sD) = false) :
    summarize env ⟨some ⟨sM, rM⟩, some ⟨sW, rW⟩, some ⟨sD, rD⟩⟩ =
      some (summarizeReload env) := by
  cases hfe : env.files.getLast? with
  | none => exact absurd (List.getLast?_eq_none_iff.mp hfe) hfiles
  | some lf =>
    have hsel : selectFiles env.files (some ⟨sD, rD⟩) =
        some (env.files.filter (fun f => strLt (logLimit lf.name dt) f.name) ++ [lf]) := by
      simp [selectFiles, hfe, hmax]
    have hne : (env.files.filter (fun f => strLt (logLimit lf.name dt) f.name) ++ [lf]) ≠ [] := by
      simp
    by_cases hM : dffCols.all (fun c => c ∈ sM) = true
    · by_cases hW : dffCols.all (fun c => c ∈ sW) = true
      · by_cases hD : dffCols.all (fun c => c ∈ sD) = true
        · rcases hbad with h | h | h <;> simp [h] at *
        · simp [summarize, hsel, hne, hmax, DB_CONFIG_levels, sumLoop,
            DB.get, DB.set, insertT, deleteFrom, hM, hW, hD]
      · simp [summarize, hsel, hne, hmax, DB_CONFIG_levels, sumLoop,
          DB.get, DB.set, insertT, deleteFrom, hM, hW]
    · simp [summarize, hsel, hne, hmax, DB_CONFIG_levels, sumLoop,
        DB.get, DB.set, insertT, deleteFrom, hM]

/-- Witness for C5: a store whose `aggM` was created with a single
column `time` (a stale schema) makes the first insert fail; the result
is exactly the drop-and-rebuild run. -/
theorem claim5_schema_mismatch_reload_witness :
    (envB.files ≠ []) ∧
    maxTimeA [dAgg] = some ⟨2024, 5, 1, 0⟩ ∧
    (dffCols.all (fun c => c ∈ (["time"] : List String)) = false ∨
     dffCols.all (fun c => c ∈ dffCols) = false ∨
     dffCols.all (fun c => c ∈ dffCols) = false) ∧
    summarize envB ⟨some ⟨["time"], []⟩, some ⟨dffCols, []⟩, some ⟨dffCols, [dAgg]⟩⟩ =
      some (summarizeReload envB) :=
  ⟨by decide, by decide, Or.inl (by decide),
    claim5_schema_mismatch_reload envB ["time"] dffCols dffCols [] [] [dAgg]
      ⟨2024, 5, 1, 0⟩ (by decide) (by decide) (Or.inl (by decide))⟩

/-- Witness for C10 at a concrete input. -/
theorem claim10_session_invariant_witness :
    (⟨wRowB, 0, 100⟩ : SRow) ∈ addSession 15 wRows ∧
    (((⟨wRowB, 0, 100⟩ : SRow).newSession = 0 ∨
      (⟨wRowB, 0, 100⟩ : SRow).newSession = 1) ∧
     ((⟨wRowB, 0, 100⟩ : SRow).newSession = 1 →
      (⟨wRowB, 0, 100⟩ : SRow).sessionTime = 0)) :=
  ⟨by decide, claim10_session_invariant 15 wRows _ (by decide)⟩

/-- Membership in a stable insertion. -/
theorem mem_insertByB {α : Type} (le : α → α → Bool) (x y : α) (l : List α) :
    y ∈ insertByB le x l ↔ y = x ∨ y ∈ l := by
  induction l with
  | nil => simp [insertByB]
  | cons z zs ih =>
    simp only [insertByB]
    by_cases h : le z x = true
    · rw [if_pos h]
      simp only [List.mem_cons, ih]
      tauto
    · rw [if_neg h]
      simp only [List.mem_cons]

theorem mem_sortByB_aux {α : Type} (le : α → α → Bool) (l acc : List α) (y : α) :
    y ∈ l.foldl (fun acc x => insertByB le x acc) acc ↔ y ∈ acc ∨ y ∈ l := by
  induction l generalizing acc with
  | nil => simp
  | cons z zs ih =>
    simp only [List.foldl_cons, ih, mem_insertByB, List.mem_cons]
    tauto

theorem mem_sortByB {α : Type} (le : α → α → Bool) (l : List α) (y : α) :
    y ∈ sortByB le l ↔ y ∈ l := by
  simp [sortByB, mem_sortByB_aux]

theorem mem_dedupGo {α : Type} [DecidableEq α] (l : List α) :
    ∀ (seen : List α) (x : α), x ∈ dedupGo seen l → x ∈ l := by
  induction l with
  | nil => intro seen x h; simp [dedupGo] at h
  | cons z zs ih =>
    intro seen x h
    rw [dedupGo] at h
    by_cases hz : z ∈ seen
    · rw [if_pos hz] at h
      exact List.mem_cons_of_mem _ (ih _ _ h)
    · rw [if_neg hz] at h
      rcases List.mem_cons.mp h with h1 | h1
      · exact h1 ▸ List.mem_cons_self _ _
      · exact List.mem_cons_of_mem _ (ih _ _ h1)

theorem claim6_multi_granularity_rollup :
    (tableName Freq.M = "aggM" ∧ tableName Freq.W = "aggW" ∧ tableName Freq.D = "aggD") ∧
    DB_CONFIG_levels = [Freq.M, Freq.W, Freq.D] ∧
    tableColumns = ["duration_count", "duration_sum", "duration_mean",
      "new_session_sum", "session_time_sum", "session_time_mean",
      "time", "user.id", "ip", "status", "uri"] ∧
    (∀ (f : Freq) (data : List SRow) (a : AggRow), a ∈ pdagg f data →
      (data.filter (fun r =>
          keyOfRow f r = ⟨a.time, a.userId, a.ip, a.status, a.uri⟩)) ≠ [] ∧
      a.duration_count = (data.filter (fun r =>
          keyOfRow f r = ⟨a.time, a.userId, a.ip, a.status, a.uri⟩)).length ∧
      a.duration_sum = Frac.lsum ((data.filter (fun r =>
          keyOfRow f r = ⟨a.time, a.userId, a.ip, a.status, a.uri⟩)).map (·.duration)) ∧
      a.duration_mean = a.duration_sum / Frac.ofInt ((data.filter (fun r =>
          keyOfRow f r = ⟨a.time, a.userId, a.ip, a.status, a.uri⟩)).length) ∧
      a.new_session_sum = ((data.filter (fun r =>
          keyOfRow f r = ⟨a.time, a.userId, a.ip, a.status, a.uri⟩)).map (·.newSession)).sum ∧
      a.session_time_sum = Frac.lsum ((data.filter (fun r =>
          keyOfRow f r = ⟨a.time, a.userId, a.ip, a.status, a.uri⟩)).map (·.sessionTime)) ∧
      a.session_time_mean = a.session_time_sum / Frac.ofInt ((data.filter (fun r =>
          keyOfRow f r = ⟨a.time, a.userId, a.ip, a.status, a.uri⟩)).length) ∧
      (∀ r ∈ data.filter (fun r =>
          keyOfRow f r = ⟨a.time, a.userId, a.ip, a.status, a.uri⟩),
        freqLabel f r.time = a.time)) := by
  refine ⟨⟨rfl, rfl, rfl⟩, rfl, rfl, ?_⟩
  intro f data a ha
  obtain ⟨k, hk, rfl⟩ := List.mem_map.mp ha
  obtain ⟨kt, ku, ki, ks, kuri⟩ := k
  have hmem : (⟨kt, ku, ki, ks, kuri⟩ : GKey) ∈ data.map (keyOfRow f) :=
    mem_dedupGo _ _ _ ((mem_sortByB _ _ _).mp hk)
  obtain ⟨r, hr, hkr⟩ := List.mem_map.mp hmem
  refine ⟨?_, rfl, rfl, rfl, rfl, rfl, rfl, ?_⟩
  · exact List.ne_nil_of_mem (List.mem_filter.mpr ⟨hr, by simp [hkr, aggOf]⟩)
  · intro q hq
    have := (List.mem_filter.mp hq).2
    have hkq : keyOfRow f q = ⟨kt, ku, ki, ks, kuri⟩ := by
      simpa [aggOf] using this
    exact congrArg GKey.time hkq

/-- Witness for C6: the daily aggregate of the sessionized `wRows` is the
single row `wAgg`, whose metrics are the counts/sums/means of its group. -/
theorem claim6_multi_granularity_rollup_witness :
    wAgg ∈ pdagg Freq.D (addSession 15 wRows) ∧
    (((addSession 15 wRows).filter (fun r =>
        keyOfRow Freq.D r = ⟨wAgg.time, wAgg.userId, wAgg.ip, wAgg.status, wAgg.uri⟩)) ≠ [] ∧
     wAgg.duration_count = ((addSession 15 wRows).filter (fun r =>
        keyOfRow Freq.D r = ⟨wAgg.time, wAgg.userId, wAgg.ip, wAgg.status, wAgg.uri⟩)).length ∧
     wAgg.duration_sum = Frac.lsum (((addSession 15 wRows).filter (fun r =>
        keyOfRow Freq.D r = ⟨wAgg.time, wAgg.userId, wAgg.ip, wAgg.status, wAgg.uri⟩)).map (·.duration)) ∧
     wAgg.duration_mean = wAgg.duration_sum / Frac.ofInt (((addSession 15 wRows).filter (fun r =>
        keyOfRow Freq.D r = ⟨wAgg.time, wAgg.userId, wAgg.ip, wAgg.status, wAgg.uri⟩)).length) ∧
     wAgg.new_session_sum = (((addSession 15 wRows).filter (fun r =>
        keyOfRow Freq.D r = ⟨wAgg.time, wAgg.userId, wAgg.ip, wAgg.status, wAgg.uri⟩)).map (·.newSession)).sum ∧
     wAgg.session_time_sum = Frac.lsum (((addSession 15 wRows).filter (fun r =>
        keyOfRow Freq.D r = ⟨wAgg.time, wAgg.userId, wAgg.ip, wAgg.status, wAgg.uri⟩)).map (·.sessionTime)) ∧
     wAgg.session_time_mean = wAgg.session_time_sum / Frac.ofInt (((addSession 15 wRows).filter (fun r =>
        keyOfRow Freq.D r = ⟨wAgg.time, wAgg.userId, wAgg.ip, wAgg.status, wAgg.uri⟩)).length) ∧
     (∀ r ∈ (addSession 15 wRows).filter (fun r =>
        keyOfRow Freq.D r = ⟨wAgg.time, wAgg.userId, wAgg.ip, wAgg.status, wAgg.uri⟩),
       freqLabel Freq.D r.time = wAgg.time)) :=
  ⟨by decide,
    claim6_multi_granularity_rollup.2.2.2 Freq.D (addSession 15 wRows) wAgg (by decide)⟩

/-- Irreflexivity of `chLt`. -/
theorem chLt_irrefl (a : List Char) : chLt a a = false := by
  induction a with
  | nil => rfl
  | cons x xs ih => rw [chLt]; simp [Nat.lt_irrefl, ih]

theorem chLt_trans (a : List Char) :
    ∀ b c, chLt a b = true → chLt b c = true → chLt a c = true := by
  induction a with
  | nil =>
    intro b c h1 h2
    cases b with
    | nil => simp [chLt] at h1
    | cons y ys =>
      cases c with
      | nil => simp [chLt] at h2
      | cons z zs => rfl
  | cons x xs ih =>
    intro b c h1 h2
    cases b with
    | nil => simp [chLt] at h1
    | cons y ys =>
      cases c with
      | nil => simp [chLt] at h2
      | cons z zs =>
        rw [chLt] at h1 h2 ⊢
        by_cases hxy : x.toNat < y.toNat
        · by_cases hyz : y.toNat < z.toNat
          · rw [if_pos (Nat.lt_trans hxy hyz)]
          · rw [if_neg hyz] at h2
            by_cases hzy : z.toNat < y.toNat
            · rw [if_pos hzy] at h2; exact absurd h2 (by simp)
            · have heq : y.toNat = z.toNat :=
                Nat.le_antisymm (Nat.not_lt.mp hzy) (Nat.not_lt.mp hyz)
              rw [if_pos (heq ▸ hxy)]
        · rw [if_neg hxy] at h1
          by_cases hyx : y.toNat < x.toNat
          · rw [if_pos hyx] at h1; exact absurd h1 (by simp)
          · rw [if_neg hyx] at h1
            have hxy' : x.toNat = y.toNat :=
              Nat.le_antisymm (Nat.not_lt.mp hyx) (Nat.not_lt.mp hxy)
            by_cases hyz : y.toNat < z.toNat
            · rw [if_pos (hxy' ▸ hyz)]
            · rw [if_neg hyz] at h2
              by_cases hzy : z.toNat < y.toNat
              · rw [if_pos hzy] at h2; exact absurd h2 (by simp)
              · rw [if_neg hzy] at h2
                have hyz' : y.toNat = z.toNat :=
                  Nat.le_antisymm (Nat.not_lt.mp hzy) (Nat.not_lt.mp hyz)
                have hxz : ¬ x.toNat < z.toNat := by omega
                have hzx : ¬ z.toNat < x.toNat := by omega
                rw [if_neg hxz, if_neg hzx]
                exact ih ys zs h1 h2

theorem chLt_conn (a : List Char) :
    ∀ b, chLt a b = false → chLt b a = true ∨ a = b := by
  induction a with
  | nil =>
    intro b h
    cases b with
    | nil => exact Or.inr rfl
    | cons y ys => simp [chLt] at h
  | cons x xs ih =>
    intro b h
    cases b with
    | nil => exact Or.inl rfl
    | cons y ys =>
      rw [chLt] at h
      by_cases hxy : x.toNat < y.toNat
      · rw [if_pos hxy] at h; exact absurd h (by simp)
      · rw [if_neg hxy] at h
        by_cases hyx : y.toNat < x.toNat
        · exact Or.inl (by rw [chLt, if_pos hyx])
        · rw [if_neg hyx] at h
          have hxy' : x = y := by
            have hnn : x.toNat = y.toNat :=
              Nat.le_antisymm (Nat.not_lt.mp hyx) (Nat.not_lt.mp hxy)
            exact Char.ext (UInt32.toNat.inj hnn)
          rcases ih ys h with h1 | h1
          · exact Or.inl (by rw [chLt]; simp [hxy', Nat.lt_irrefl, h1])
          · exact Or.inr (by rw [hxy', h1])



theorem strLt_irrefl (a : String) : strLt a a = false := chLt_irrefl _

theorem strLt_trans {a b c : String} (h1 : strLt a b = true)
    (h2 : strLt b c = true) : strLt a c = true := chLt_trans _ _ _ h1 h2

theorem strLt_conn (a b : String) (h : strLt a b = false) :
    strLt b a = true ∨ a = b := by
  rcases chLt_conn a.toList b.toList h with h1 | h1
  · exact Or.inl h1
  · refine Or.inr ?_
    cases a with
    | mk da =>
      cases b with
      | mk db => simpa [String.toList] using congrArg String.mk h1

theorem foldMin_spec (vs : List String) : ∀ acc : String,
    ((vs.foldl (fun a b => if strLt b a then b else a) acc) = acc ∨
      (vs.foldl (fun a b => if strLt b a then b else a) acc) ∈ vs) ∧
    strLt acc (vs.foldl (fun a b => if strLt b a then b else a) acc) = false ∧
    ∀ x ∈ vs, strLt x (vs.foldl (fun a b => if strLt b a then b else a) acc) = false := by
  induction vs with
  | nil => intro acc; exact ⟨Or.inl rfl, strLt_irrefl acc, by simp⟩
  | cons b bs ih =>
    intro acc
    simp only [List.foldl_cons]
    by_cases hba : strLt b acc = true
    · rw [if_pos hba]
      obtain ⟨hm, hle, hall⟩ := ih b
      refine ⟨?_, ?_, ?_⟩
      · rcases hm with h | h
        · exact Or.inr (by rw [h]; exact List.mem_cons_self _ _)
        · exact Or.inr (List.mem_cons_of_mem _ h)
      · by_contra hc
        have hc' : strLt acc (List.foldl (fun a b => if strLt b a then b else a) b bs) = true := by
          simpa using hc
        have := strLt_trans hba hc'
        rw [hle] at this
        exact absurd this (by simp)
      · intro x hx
        rcases List.mem_cons.mp hx with h | hxs
        · rw [h]; exact hle
        · exact hall x hxs
    · rw [if_neg hba]
      obtain ⟨hm, hle, hall⟩ := ih acc
      refine ⟨?_, hle, ?_⟩
      · rcases hm with h | h
        · exact Or.inl h
        · exact Or.inr (List.mem_cons_of_mem _ h)
      · intro x hx
        rcases List.mem_cons.mp hx with h | hxs
        · subst h
          by_contra hc
          have hc' : strLt x (List.foldl (fun a b => if strLt b a then b else a) acc bs) = true := by
            simpa using hc
          have hba' : strLt x acc = false := by simpa using hba
          rcases strLt_conn x acc hba' with h1 | h1
          · have := strLt_trans h1 hc'
            rw [hle] at this
            exact absurd this (by simp)
          · rw [h1] at hc'
            rw [hle] at hc'
            exact absurd hc' (by simp)
        · exact hall x hxs

theorem foldMax_spec (vs : List String) : ∀ acc : String,
    ((vs.foldl (fun a b => if strLt a b then b else a) acc) = acc ∨
      (vs.foldl (fun a b => if strLt a b then b else a) acc) ∈ vs) ∧
    strLt (vs.foldl (fun a b => if strLt a b then b else a) acc) acc = false ∧
    ∀ x ∈ vs, strLt (vs.foldl (fun a b => if strLt a b then b else a) acc) x = false := by
  induction vs with
  | nil => intro acc; exact ⟨Or.inl rfl, strLt_irrefl acc, by simp⟩
  | cons b bs ih =>
    intro acc
    simp only [List.foldl_cons]
    by_cases hba : strLt acc b = true
    · rw [if_pos hba]
      obtain ⟨hm, hle, hall⟩ := ih b
      refine ⟨?_, ?_, ?_⟩
      · rcases hm with h | h
        · exact Or.inr (by rw [h]; exact List.mem_cons_self _ _)
        · exact Or.inr (List.mem_cons_of_mem _ h)
      · by_contra hc
        have hc' : strLt (List.foldl (fun a b => if strLt a b then b else a) b bs) acc = true := by
          simpa using hc
        have := strLt_trans hc' hba
        rw [hle] at this
        exact absurd this (by simp)
      · intro x hx
        rcases List.mem_cons.mp hx with h | hxs
        · rw [h]; exact hle
        · exact hall x hxs
    · rw [if_neg hba]
      obtain ⟨hm, hle, hall⟩ := ih acc
      refine ⟨?_, hle, ?_⟩
      · rcases hm with h | h
        · exact Or.inl h
        · exact Or.inr (List.mem_cons_of_mem _ h)
      · intro x hx
        rcases List.mem_cons.mp hx with h | hxs
        · subst h
          by_contra hc
          have hc' : strLt (List.foldl (fun a b => if strLt a b then b else a) acc bs) x = true := by
            simpa using hc
          have hba' : strLt acc x = false := by simpa using hba
          rcases strLt_conn acc x hba' with h1 | h1
          · have := strLt_trans hc' h1
            rw [hle] at this
            exact absurd this (by simp)
          · rw [← h1] at hc'
            rw [hle] at hc'
            exact absurd hc' (by simp)
        · exact hall x hxs

theorem minS_spec (v : String) (vs : List String) :
    ∃ m, minS (v :: vs) = some m ∧ m ∈ v :: vs ∧
      ∀ x ∈ v :: vs, strLt x m = false := by
  obtain ⟨hm, hle, hall⟩ := foldMin_spec vs v
  refine ⟨_, rfl, ?_, ?_⟩
  · rcases hm with h | h
    · rw [h]; exact List.mem_cons_self _ _
    · exact List.mem_cons_of_mem _ h
  · intro x hx
    rcases List.mem_cons.mp hx with h | hxs
    · rw [h]; exact hle
    · exact hall x hxs

theorem maxS_spec (v : String) (vs : List String) :
    ∃ m, maxS (v :: vs) = some m ∧ m ∈ v :: vs ∧
      ∀ x ∈ v :: vs, strLt m x = false := by
  obtain ⟨hm, hle, hall⟩ := foldMax_spec vs v
  refine ⟨_, rfl, ?_, ?_⟩
  · rcases hm with h | h
    · rw [h]; exact List.mem_cons_self _ _
    · exact List.mem_cons_of_mem _ h
  · intro x hx
    rcases List.mem_cons.mp hx with h | hxs
    · rw [h]; exact hle
    · exact hall x hxs



theorem filter_col_op (key : String) (columns : List String) :
    (filter_col key columns).2 = "" ∨ (filter_col key columns).2 ∈ opSuffixes := by
  rw [filter_col]
  by_cases h : key ∈ columns
  · rw [if_pos h]; exact Or.inl rfl
  · rw [if_neg h]
    cases hf : opSuffixes.find? (fun op =>
        strEndsWith key op && decide ((strDropRight key op.length) ∈ columns)) with
    | none => exact Or.inl rfl
    | some op => exact Or.inr (List.mem_of_find?_eq_some hf)

theorem buildWheres_eq (columns : List String) :
    ∀ args : List (String × List String), (∀ kv ∈ args, kv.2 ≠ []) →
    buildWheres columns args = some (args.filterMap (specCond columns)) := by
  intro args
  induction args with
  | nil => intro _; rfl
  | cons kv rest ih =>
    intro h
    obtain ⟨key, vals⟩ := kv
    have hvals : vals ≠ [] := h _ (List.mem_cons_self _ _)
    have hrest := ih (fun kv hkv => h kv (List.mem_cons_of_mem _ hkv))
    have hops := filter_col_op key columns
    rw [buildWheres, List.filterMap_cons]
    simp only [specCond]
    rcases hfc : filter_col key columns with ⟨col, op⟩
    rw [hfc] at hops
    simp only [hfc]
    by_cases hcol : col ∈ columns
    · simp only [if_pos hcol]
      rcases hops with hop | hop
      all_goals (first
        | (subst hop
           cases vals with
           | nil => exact absurd rfl hvals
           | cons v vs => simp [hrest, minS, maxS])
        | skip)
      simp only [opSuffixes, List.mem_cons, List.not_mem_nil, or_false] at hop
      rcases hop with hop | hop | hop | hop | hop | hop | hop
      all_goals (subst hop
                 cases vals with
                 | nil => exact absurd rfl hvals
                 | cons v vs => simp [hrest, minS, maxS])
    · simp only [if_neg hcol]
      simpa using hrest



theorem specCond_len_pos (columns : List String) (kv : String × List String) (c : String)
    (h : specCond columns kv = some c) : 0 < c.length := by
  have h1 : (("\"" : String)).length = 1 := rfl
  have h2 : (("(" : String)).length = 1 := rfl
  rw [specCond] at h
  by_cases hcol : (filter_col kv.1 columns).1 ∈ columns
  · rw [if_pos hcol] at h
    split at h <;> first
      | (cases h; simp only [String.length_append]; omega)
      | exact Option.noConfusion h
  · rw [if_neg hcol] at h
    exact Option.noConfusion h

theorem joinAnd_ne_empty (c : String) (cs : List String) (hc : 0 < c.length) :
    joinAnd (c :: cs) ≠ "" := by
  have h5 : ((" AND " : String)).length = 5 := rfl
  cases cs with
  | nil =>
    intro h
    rw [joinAnd, joinSep] at h
    rw [h] at hc
    simp at hc
  | cons d ds =>
    intro h
    have hj : joinAnd (c :: d :: ds) =
        c ++ " AND " ++ joinSep " AND " (d :: ds) := rfl
    rw [hj] at h
    have hlen2 := congrArg String.length h
    simp only [String.length_append] at hlen2
    have h0 : ("" : String).length = 0 := rfl
    omega

/--
C4.  Filter-to-SQL translation: `prepare_where` equals the specification
rendering `prepareWhereSpec` — one condition per argument key whose
column is listed (IN / NOT IN of all values, comparisons against the
minimum for `>`/`>~` and the maximum for `<`/`<~`, OR-disjunctions
of (NOT) LIKE for `~`/`!~`), unlisted keys skipped, conditions joined
with ' AND ', empty string when nothing applies, and a 'WHERE '/'AND '
prefix chosen by whether the query contains ' WHERE '.  The second and
third conjuncts check that `minS`/`maxS` (Python `min`/`max`) really
return the least/greatest value.  Requires every key's value list to be
nonempty, as Python `min`/`max` raise on empty sequences.
-/
theorem claim4_filter_to_sql :
    (∀ (query : String) (args : List (String × List String)) (columns : List String),
      (∀ kv ∈ args, kv.2 ≠ []) →
      prepare_where query args columns = some (prepareWhereSpec query args columns)) ∧
    (∀ (v : String) (vs : List String), ∃ m, minS (v :: vs) = some m ∧
      m ∈ v :: vs ∧ ∀ x ∈ v :: vs, strLt x m = false) ∧
    (∀ (v : String) (vs : List String), ∃ m, maxS (v :: vs) = some m ∧
      m ∈ v :: vs ∧ ∀ x ∈ v :: vs, strLt m x = false) := by
  refine ⟨?_, minS_spec, maxS_spec⟩
  intro query args columns h
  rw [prepare_where, buildWheres_eq columns args h]
  rw [prepareWhereSpec]
  simp only [Option.map_some', Option.some.injEq]
  cases hc : args.filterMap (specCond columns) with
  | nil => simp [joinAnd, joinSep]
  | cons c cs =>
    have hlen : 0 < c.length := by
      have hmem : c ∈ args.filterMap (specCond columns) := by
        rw [hc]; exact List.mem_cons_self _ _
      obtain ⟨kv, hkv, hsc⟩ := List.mem_filterMap.mp hmem
      exact specCond_len_pos columns kv c hsc
    have hne := joinAnd_ne_empty c cs hlen
    rw [if_neg hne, if_neg (by simp : ¬(c :: cs = []))]

/-- Witness for C4 on a concrete query: a plain column, a `>` key, and an
unlisted key. -/
theorem claim4_filter_to_sql_witness :
    ((∀ kv ∈ ([("uri", ["a"]), ("time>", ["b", "a"]), ("zz", ["1"])] :
        List (String × List String)), kv.2 ≠ []) ∧
     prepare_where "SELECT * FROM aggD"
         [("uri", ["a"]), ("time>", ["b", "a"]), ("zz", ["1"])] tableColumns =
       some (prepareWhereSpec "SELECT * FROM aggD"
         [("uri", ["a"]), ("time>", ["b", "a"]), ("zz", ["1"])] tableColumns)) ∧
    (∃ m, minS ["b", "a"] = some m ∧ m ∈ (["b", "a"] : List String) ∧
      ∀ x ∈ (["b", "a"] : List String), strLt x m = false) ∧
    (∃ m, maxS ["b", "a"] = some m ∧ m ∈ (["b", "a"] : List String) ∧
      ∀ x ∈ (["b", "a"] : List String), strLt m x = false) :=
  ⟨⟨by decide, claim4_filter_to_sql.1 "SELECT * FROM aggD"
      [("uri", ["a"]), ("time>", ["b", "a"]), ("zz", ["1"])] tableColumns (by decide)⟩,
   claim4_filter_to_sql.2.1 "b" ["a"], claim4_filter_to_sql.2.2 "b" ["a"]⟩

set_option maxHeartbeats 1000000 in
/-- Successive-year day count. -/
theorem daysBeforeYear_succ (z : Nat) (hz : 1 ≤ z) :
    daysBeforeYear (z + 1) = daysBeforeYear z + 365 + (if isLeap z then 1 else 0) := by
  cases hb : isLeap z with
  | true =>
    have hb' := hb
    unfold isLeap at hb'
    simp only [Bool.or_eq_true, Bool.and_eq_true, beq_iff_eq, bne_iff_ne] at hb'
    have hone : (if (true = true) then (1 : Nat) else 0) = 1 := rfl
    rw [hone]
    unfold daysBeforeYear
    rcases hb' with ⟨h2, h3⟩ | h2 <;> omega
  | false =>
    have hb' := hb
    unfold isLeap at hb'
    simp only [Bool.or_eq_false_iff, Bool.and_eq_false_iff, beq_eq_false_iff_ne,
      bne_eq_false_iff_eq, ne_eq] at hb'
    have hzero : (if (false = true) then (1 : Nat) else 0) = 0 := rfl
    rw [hzero]
    unfold daysBeforeYear
    obtain ⟨h2, h3⟩ := hb'
    rcases h2 with h2 | h2 <;> omega

theorem cumDaysBefore_succ (ℓ : Bool) (k : Nat) (hk : 1 ≤ k) :
    cumDaysBefore ℓ (k + 1) = cumDaysBefore ℓ k + monthLen ℓ k := by
  match k, hk with
  | (j + 1), _ => rfl

theorem monthLen_pos (ℓ : Bool) (m : Nat) : 1 ≤ monthLen ℓ m := by
  unfold monthLen
  split
  · split <;> omega
  · split <;> omega

theorem cumDays12 (ℓ : Bool) :
    cumDaysBefore ℓ 12 = 334 + (if ℓ then 1 else 0) := by
  cases ℓ <;> rfl

theorem monthLen12 (ℓ : Bool) : monthLen ℓ 12 = 31 := by cases ℓ <;> rfl

theorem prevDay_spec (t : DTime) (hv : ValidDate t)
    (hy : t.m = 1 ∧ t.d = 1 → 2 ≤ t.y) :
    ValidDate (prevDay t) ∧
    dayNumber (prevDay t).y (prevDay t).m (prevDay t).d + 1 = dayNumber t.y t.m t.d ∧
    (prevDay t).ms = t.ms := by
  obtain ⟨hy1, hm1, hm2, hd1, hd2⟩ := hv
  by_cases hd : t.d ≥ 2
  · have he : prevDay t = ⟨t.y, t.m, t.d - 1, t.ms⟩ := by simp [prevDay, hd]
    rw [he]
    refine ⟨?_, ?_, rfl⟩
    · show ValidDate ⟨t.y, t.m, t.d - 1, t.ms⟩
      unfold ValidDate
      dsimp only
      omega
    · unfold dayNumber
      dsimp only
      omega
  · have hd1' : t.d = 1 := by omega
    by_cases hm : t.m ≥ 2
    · have he : prevDay t = ⟨t.y, t.m - 1, daysInMonth t.y (t.m - 1), t.ms⟩ := by
        simp [prevDay, hd, hm]
      rw [he]
      refine ⟨?_, ?_, rfl⟩
      · show ValidDate ⟨t.y, t.m - 1, daysInMonth t.y (t.m - 1), t.ms⟩
        have hpos : 1 ≤ daysInMonth t.y (t.m - 1) := monthLen_pos _ _
        unfold ValidDate
        dsimp only
        omega
      · unfold dayNumber daysInMonth
        dsimp only
        have hc := cumDaysBefore_succ (isLeap t.y) (t.m - 1) (by omega)
        have hmm : t.m - 1 + 1 = t.m := by omega
        rw [hmm] at hc
        omega
    · have hm1' : t.m = 1 := by omega
      have hy2 : 2 ≤ t.y := hy ⟨hm1', hd1'⟩
      have he : prevDay t = ⟨t.y - 1, 12, 31, t.ms⟩ := by
        simp [prevDay, hd, hm]
      rw [he]
      refine ⟨?_, ?_, rfl⟩
      · show ValidDate ⟨t.y - 1, 12, 31, t.ms⟩
        have h31 : daysInMonth (t.y - 1) 12 = 31 := by rw [daysInMonth, monthLen12]
        unfold ValidDate
        dsimp only
        omega
      · unfold dayNumber
        dsimp only
        have h12 := cumDays12 (isLeap (t.y - 1))
        have hys := daysBeforeYear_succ (t.y - 1) (by omega)
        have hyy : t.y - 1 + 1 = t.y := by omega
        rw [hyy] at hys
        rw [hm1', h12]
        have hc1 : cumDaysBefore (isLeap t.y) 1 = 0 := rfl
        rw [hc1]
        cases hl : isLeap (t.y - 1) with
        | true =>
          rw [hl] at hys
          have hone : (if (true = true) then (1 : Nat) else 0) = 1 := rfl
          rw [hone] at hys ⊢
          omega
        | false =>
          rw [hl] at hys
          have hzero : (if (false = true) then (1 : Nat) else 0) = 0 := rfl
          rw [hzero] at hys ⊢
          omega

theorem subDays_spec (n : Nat) : ∀ (t : DTime), ValidDate t →
    366 + n ≤ dayNumber t.y t.m t.d →
    ValidDate (subDays n t) ∧
    dayNumber (subDays n t).y (subDays n t).m (subDays n t).d + n =
      dayNumber t.y t.m t.d ∧
    (subDays n t).ms = t.ms := by
  induction n with
  | zero => intro t hv _; exact ⟨hv, rfl, rfl⟩
  | succ k ih =>
    intro t hv hbound
    have hyimp : t.m = 1 ∧ t.d = 1 → 2 ≤ t.y := by
      rintro ⟨hm, hd⟩
      by_contra hc
      have hdb : daysBeforeYear t.y = 0 := by
        unfold daysBeforeYear
        omega
      have hdn : dayNumber t.y t.m t.d ≤ 1 := by
        unfold dayNumber
        rw [hm, hd, hdb]
        have : cumDaysBefore (isLeap t.y) 1 = 0 := rfl
        omega
      omega
    obtain ⟨hv2, hdn2, hms2⟩ := prevDay_spec t hv hyimp
    have hbound2 : 366 + k ≤ dayNumber (prevDay t).y (prevDay t).m (prevDay t).d := by
      omega
    obtain ⟨h1, h2, h3⟩ := ih (prevDay t) hv2 hbound2
    rw [subDays]
    exact ⟨h1, by omega, by rw [h3, hms2]⟩

theorem cutoffW_monday (dt : DTime) (hv : ValidDate dt)
    (hcal : 373 ≤ dayNumber dt.y dt.m dt.d) :
    (cutoff Freq.W dt).weekday = 0 ∧
    (cutoff Freq.W dt).toMs + dt.weekday * 86400000 = dt.toMs := by
  have hw6 : dt.weekday ≤ 6 := by unfold DTime.weekday; omega
  obtain ⟨h1, h2, h3⟩ := subDays_spec dt.weekday dt hv (by omega)
  constructor
  · show (subDays dt.weekday dt).weekday = 0
    unfold DTime.weekday at *
    omega
  · show (subDays dt.weekday dt).toMs + dt.weekday * 86400000 = dt.toMs
    unfold DTime.toMs
    rw [h3]
    unfold DTime.weekday at *
    omega

theorem filter_lt_eq (c : Nat) (l : List AggRow) :
    l.filter (fun a => !decide (c ≤ a.time.toMs)) =
      l.filter (fun a => decide (a.time.toMs < c)) := by
  apply List.filter_congr
  intro a _
  by_cases h : c ≤ a.time.toMs
  · simp [h, Nat.not_lt.mpr h]
  · simp [h, Nat.lt_of_not_le h]

/--
C2 (amended).  With all three tables present (schemas matching the
aggregated dataframe) and `dt` the recorded maximum time of `aggD`,
`summarize` leaves, for each level, exactly the old rows strictly before
the level's boundary followed by the fresh aggregates of the
(cumulatively filtered) data from the boundary on.  The boundaries are:
`dt` itself for `D`; `dt - Day(dt.weekday())` for `W` — the Monday
(weekday 0) of `dt`'s week, `dt.weekday()` days back (last conjunct);
and for `M` the first day of `dt`'s month **except** when `dt` is the
first of a month, in which case pandas `dt - MonthBegin(1)` rolls back
to the first day of the *previous* month (the amendment).
-/
theorem claim2_delete_then_reinsert
    (env : Env) (rM rW rD : List AggRow) (dt : DTime)
    (hfiles : env.files ≠ [])
    (hmax : maxTimeA rD = some dt) :
    ∃ files2, selectFiles env.files (some ⟨dffCols, rD⟩) = some files2 ∧
      summarize env ⟨some ⟨dffCols, rM⟩, some ⟨dffCols, rW⟩, some ⟨dffCols, rD⟩⟩ =
        some ⟨
          some ⟨dffCols,
            rM.filter (fun a => decide (a.time.toMs < (cutoff Freq.M dt).toMs)) ++
            pdagg Freq.M ((sessData files2).filter
              (fun r => decide ((cutoff Freq.M dt).toMs ≤ r.time.toMs)))⟩,
          some ⟨dffCols,
            rW.filter (fun a => decide (a.time.toMs < (cutoff Freq.W dt).toMs)) ++
            pdagg Freq.W (((sessData files2).filter
                (fun r => decide ((cutoff Freq.M dt).toMs ≤ r.time.toMs))).filter
              (fun r => decide ((cutoff Freq.W dt).toMs ≤ r.time.toMs)))⟩,
          some ⟨dffCols,
            rD.filter (fun a => decide (a.time.toMs < dt.toMs)) ++
            pdagg Freq.D ((((sessData files2).filter
                (fun r => decide ((cutoff Freq.M dt).toMs ≤ r.time.toMs))).filter
                (fun r => decide ((cutoff Freq.W dt).toMs ≤ r.time.toMs))).filter
              (fun r => decide (dt.toMs ≤ r.time.toMs)))⟩⟩ ∧
      cutoff Freq.D dt = dt ∧
      (dt.d ≠ 1 → cutoff Freq.M dt = ⟨dt.y, dt.m, 1, dt.ms⟩) ∧
      (dt.d = 1 → dt.m ≠ 1 → cutoff Freq.M dt = ⟨dt.y, dt.m - 1, 1, dt.ms⟩) ∧
      (dt.d = 1 → dt.m = 1 → cutoff Freq.M dt = ⟨dt.y - 1, 12, 1, dt.ms⟩) ∧
      (ValidDate dt → 373 ≤ dayNumber dt.y dt.m dt.d →
        (cutoff Freq.W dt).weekday = 0 ∧
        (cutoff Freq.W dt).toMs + dt.weekday * 86400000 = dt.toMs) := by
  cases hfe : env.files.getLast? with
  | none => exact absurd (List.getLast?_eq_none_iff.mp hfe) hfiles
  | some lf =>
    have hsel : selectFiles env.files (some ⟨dffCols, rD⟩) =
        some (env.files.filter (fun f => strLt (logLimit lf.name dt) f.name) ++ [lf]) := by
      simp [selectFiles, hfe, hmax]
    have hne : (env.files.filter (fun f => strLt (logLimit lf.name dt) f.name) ++ [lf]) ≠ [] := by
      simp
    have hall : dffCols.all (fun c => c ∈ dffCols) = true := by decide
    refine ⟨env.files.filter (fun f => strLt (logLimit lf.name dt) f.name) ++ [lf],
      hsel, ?_, rfl, ?_, ?_, ?_, fun hv hcal => cutoffW_monday dt hv hcal⟩
    · simp [summarize, hsel, hne, hmax, DB_CONFIG_levels, sumLoop,
        DB.get, DB.set, insertT, deleteFrom, hall, filter_lt_eq, cutoff]
    · intro h; simp [cutoff, monthBeginSub, h]
    · intro h1 h2; simp [cutoff, monthBeginSub, h1, h2]
    · intro h1 h2; simp [cutoff, monthBeginSub, h1, h2]

/-- Witness for C2 at a concrete store: recorded maximum 2024-05-01,
log `envA`. -/
theorem claim2_delete_then_reinsert_witness :
    (envA.files ≠ []) ∧ maxTimeA [dAgg] = some ⟨2024, 5, 1, 0⟩ ∧
    (∃ files2, selectFiles envA.files (some ⟨dffCols, [dAgg]⟩) = some files2 ∧
      summarize envA ⟨some ⟨dffCols, []⟩, some ⟨dffCols, []⟩, some ⟨dffCols, [dAgg]⟩⟩ =
        some ⟨
          some ⟨dffCols,
            ([] : List AggRow).filter (fun a =>
              decide (a.time.toMs < (cutoff Freq.M ⟨2024, 5, 1, 0⟩).toMs)) ++
            pdagg Freq.M ((sessData files2).filter
              (fun r => decide ((cutoff Freq.M ⟨2024, 5, 1, 0⟩).toMs ≤ r.time.toMs)))⟩,
          some ⟨dffCols,
            ([] : List AggRow).filter (fun a =>
              decide (a.time.toMs < (cutoff Freq.W ⟨2024, 5, 1, 0⟩).toMs)) ++
            pdagg Freq.W (((sessData files2).filter
                (fun r => decide ((cutoff Freq.M ⟨2024, 5, 1, 0⟩).toMs ≤ r.time.toMs))).filter
              (fun r => decide ((cutoff Freq.W ⟨2024, 5, 1, 0⟩).toMs ≤ r.time.toMs)))⟩,
          some ⟨dffCols,
            ([dAgg] : List AggRow).filter (fun a =>
              decide (a.time.toMs < (⟨2024, 5, 1, 0⟩ : DTime).toMs)) ++
            pdagg Freq.D ((((sessData files2).filter
                (fun r => decide ((cutoff Freq.M ⟨2024, 5, 1, 0⟩).toMs ≤ r.time.toMs))).filter
                (fun r => decide ((cutoff Freq.W ⟨2024, 5, 1, 0⟩).toMs ≤ r.time.toMs))).filter
              (fun r => decide ((⟨2024, 5, 1, 0⟩ : DTime).toMs ≤ r.time.toMs)))⟩⟩ ∧
      cutoff Freq.D ⟨2024, 5, 1, 0⟩ = ⟨2024, 5, 1, 0⟩ ∧
      ((⟨2024, 5, 1, 0⟩ : DTime).d ≠ 1 →
        cutoff Freq.M ⟨2024, 5, 1, 0⟩ = ⟨2024, 5, 1, 0⟩) ∧
      ((⟨2024, 5, 1, 0⟩ : DTime).d = 1 → (⟨2024, 5, 1, 0⟩ : DTime).m ≠ 1 →
        cutoff Freq.M ⟨2024, 5, 1, 0⟩ = ⟨2024, 4, 1, 0⟩) ∧
      ((⟨2024, 5, 1, 0⟩ : DTime).d = 1 → (⟨2024, 5, 1, 0⟩ : DTime).m = 1 →
        cutoff Freq.M ⟨2024, 5, 1, 0⟩ = ⟨2023, 12, 1, 0⟩) ∧
      (ValidDate ⟨2024, 5, 1, 0⟩ →
        373 ≤ dayNumber (⟨2024, 5, 1, 0⟩ : DTime).y (⟨2024, 5, 1, 0⟩ : DTime).m
          (⟨2024, 5, 1, 0⟩ : DTime).d →
        (cutoff Freq.W ⟨2024, 5, 1, 0⟩).weekday = 0 ∧
        (cutoff Freq.W ⟨2024, 5, 1, 0⟩).toMs +
          (⟨2024, 5, 1, 0⟩ : DTime).weekday * 86400000 =
          (⟨2024, 5, 1, 0⟩ : DTime).toMs)) :=
  ⟨by decide, by decide,
    claim2_delete_then_reinsert envA [] [] [dAgg] ⟨2024, 5, 1, 0⟩
      (by decide) (by decide)⟩

end Gramex
